import Mathlib

/- Verification of the balanced risk-set matching engine (src/Algo.py).

   The embedding models a pandas DataFrame as an ordered list of rows; each
   row carries its index label (`idx`, the DataFrame index entry) and a list of
   named cells.  A cell holds either a numeric value (modelled exactly over ℚ;
   the float arithmetic of the original is modelled as exact real arithmetic)
   or a non-numeric value (modelled as a string), so that malformed tables --
   missing columns, non-numeric covariates -- are expressible.  Operations that
   can raise in pandas/numpy (column lookup, astype(float), reductions over
   empty arrays) return `Except PdError`.

   Euclidean distances sqrt(sum of squares) are represented by their squares
   `dist2` so that every definition stays computable over ℚ; the bridging
   lemmas `sqrt_dist2_le_iff` relate the squared comparisons used in the
   definitions to the real sqrt comparisons of the original, and the
   claim-level theorems are stated with `Real.sqrt` where the claim speaks of
   Euclidean distance.  Selecting by minimal distance and selecting by minimal
   squared distance agree because sqrt is strictly monotone on nonnegatives. -/

namespace Algo

/-- A cell value: numeric (float in the original, modelled exactly over ℚ) or
non-numeric (e.g. a string), which `astype(float)` rejects. -/
inductive Value where
  | num (q : ℚ)
  | str (s : String)
deriving DecidableEq

/-- One DataFrame row: its index label and its named cells. -/
structure Row where
  idx : ℕ
  cells : List (String × Value)
deriving DecidableEq

/-- A DataFrame: an ordered list of rows. -/
abbrev DF := List Row

/-- Errors surfaced by pandas / numpy operations. -/
inductive PdError where
  | keyError (c : String)
  | labelNotFound (i : ℕ)
  | typeError
  | valueError
deriving DecidableEq

instance {ε α : Type} [DecidableEq ε] [DecidableEq α] :
    DecidableEq (Except ε α) := fun x y =>
  match x, y with
  | Except.ok a, Except.ok b =>
    if h : a = b then isTrue (by rw [h]) else isFalse (by simp [h])
  | Except.error e, Except.error f =>
    if h : e = f then isTrue (by rw [h]) else isFalse (by simp [h])
  | Except.ok _, Except.error _ => isFalse (by simp)
  | Except.error _, Except.ok _ => isFalse (by simp)

/- Kernel-computable rational arithmetic.  Batteries marks the standard `Rat`
field operations as irreducible, which blocks `decide`-style evaluation of
concrete runs, so the embedding computes with the following transparent
versions built on the smart constructor `mkRat`; the lemmas `qadd_eq`,
`qsub_eq`, `qmul_eq`, `qdiv_eq` and `qsum_eq` prove them equal to the
standard operations, in terms of which the claim-level theorems are stated. -/

/-- Rational addition, computably. -/
def qadd (a b : ℚ) : ℚ := mkRat (a.num * b.den + b.num * a.den) (a.den * b.den)

/-- Rational subtraction, computably. -/
def qsub (a b : ℚ) : ℚ := mkRat (a.num * b.den - b.num * a.den) (a.den * b.den)

/-- Rational multiplication, computably. -/
def qmul (a b : ℚ) : ℚ := mkRat (a.num * b.num) (a.den * b.den)

/-- Rational division, computably. -/
def qdiv (a b : ℚ) : ℚ := Rat.divInt (a.num * b.den) (a.den * b.num)

/-- Rational list sum, computably. -/
def qsum : List ℚ → ℚ
  | [] => 0
  | x :: xs => qadd x (qsum xs)

/-- Numeric reading of a cell value; `astype(float)` fails on non-numeric data. -/
def Value.toNum : Value → Option ℚ
  | Value.num q => some q
  | Value.str _ => none

/-- Cell lookup `row[col]` (None models a missing column). -/
def Row.cell (r : Row) (c : String) : Option Value :=
  Option.map Prod.snd (List.find? (fun p => p.1 == c) r.cells)

/-- Reading `row[time_col]` as a number: a missing column is a KeyError, a
non-numeric value a TypeError (pandas raises on comparing/sorting mixed
non-numeric time data; no claim depends on non-numeric times). -/
def getTime (r : Row) (timeCol : String) : Except PdError ℚ :=
  match r.cell timeCol with
  | none => Except.error (PdError.keyError timeCol)
  | some v =>
    match v.toNum with
    | none => Except.error PdError.typeError
    | some t => Except.ok t

/-- Keys every row of the table by its `time_col` value (the sort key
extraction performed by `df_matched.sort_values(time_col)`, line 35). -/
def keyRows (timeCol : String) : List Row → Except PdError (List (ℚ × Row))
  | [] => Except.ok []
  | r :: rs =>
    match getTime r timeCol with
    | Except.error e => Except.error e
    | Except.ok t =>
      match keyRows timeCol rs with
      | Except.error e => Except.error e
      | Except.ok l => Except.ok ((t, r) :: l)

/-- Insertion into a time-ascending list, keeping insertion order on ties. -/
def insertRow (x : ℚ × Row) : List (ℚ × Row) → List (ℚ × Row)
  | [] => [x]
  | y :: ys => if x.1 ≤ y.1 then x :: y :: ys else y :: insertRow x ys

/-- Ascending sort of the keyed rows (insertion sort).  The original calls
`sort_values` with its default sort kind, which guarantees the ascending
order but not the relative order of time ties; the claims settled below do
not depend on the order of ties. -/
def sortRows (l : List (ℚ × Row)) : List (ℚ × Row) :=
  l.foldr insertRow []

/-- Line 34-35: `df_matched = df.copy(); df_matched.sort_values(time_col,
inplace=True)` -- the table sorted ascending by the time column; a KeyError
if the time column is missing. -/
def sortValues (df : DF) (timeCol : String) : Except PdError DF :=
  match keyRows timeCol df with
  | Except.error e => Except.error e
  | Except.ok keyed => Except.ok ((sortRows keyed).map Prod.snd)

/-- Line 40: accessing `df_matched[treatment_col]` raises a KeyError when the
treatment column is missing. -/
def colCheck (dfm : DF) (c : String) : Except PdError Unit :=
  if dfm.all (fun r => (r.cell c).isSome) then Except.ok ()
  else Except.error (PdError.keyError c)

/-- The boolean mask `df_matched[time_col] >= treated_time` for one row. -/
def timeGe (r : Row) (timeCol : String) (tt : ℚ) : Bool :=
  match getTime r timeCol with
  | Except.ok t => decide (tt ≤ t)
  | Except.error _ => false

/-- Lines 45-49: the risk set of a treated subject -- rows whose time is no
earlier than the treated time, whose treatment value equals 0, and whose
index is not among the consumed controls, in table order. -/
def riskSet (dfm : DF) (tCol timeCol : String) (consumed : List ℕ) (tt : ℚ) :
    List Row :=
  dfm.filter (fun r =>
    timeGe r timeCol tt
      && decide (r.cell tCol = some (Value.num 0))
      && decide (r.idx ∉ consumed))

/-- Line 54-55: `row[covariate_cols].values.astype(float)` -- the covariate
vector of a row; a missing covariate column is a KeyError, a non-numeric
covariate value a ValueError (raised by `astype(float)`). -/
def rowCovs (r : Row) : List String → Except PdError (List ℚ)
  | [] => Except.ok []
  | c :: cs =>
    match r.cell c with
    | none => Except.error (PdError.keyError c)
    | some v =>
      match v.toNum with
      | none => Except.error PdError.valueError
      | some q =>
        match rowCovs r cs with
        | Except.error e => Except.error e
        | Except.ok qs => Except.ok (q :: qs)

/-- Squared Euclidean distance between two covariate vectors (line 56 computes
`np.linalg.norm(controls_cov - treated_cov, axis=1)`; we carry the squares,
which determine the same comparisons and the same argmin). -/
def dist2 (xs ys : List ℚ) : ℚ :=
  qsum (List.zipWith (fun a b => qmul (qsub a b) (qsub a b)) xs ys)

/-- Line 56: each risk-set row paired with its (squared) distance to the
treated subject, in risk-set order. -/
def candsOf (tcov : List ℚ) (covCols : List String) :
    List Row → Except PdError (List (Row × ℚ))
  | [] => Except.ok []
  | r :: rs =>
    match rowCovs r covCols with
    | Except.error e => Except.error e
    | Except.ok cv =>
      match candsOf tcov covCols rs with
      | Except.error e => Except.error e
      | Except.ok l => Except.ok ((r, dist2 tcov cv) :: l)

/-- Lines 58-63: with a caliper, keep the candidates whose distance is within
it.  The original tests `sqrt d2 <= caliper`; over ℚ this is equivalent to
`0 ≤ caliper ∧ d2 ≤ caliper * caliper` (lemma `sqrt_le_iff_sq_le`). -/
def applyCaliper : Option ℚ → List (Row × ℚ) → List (Row × ℚ)
  | none, cands => cands
  | some c, cands =>
    cands.filter (fun p => decide (0 ≤ c) && decide (p.2 ≤ qmul c c))

/-- Line 65: `np.argmin` scan -- keeps the current best and replaces it only
on a strictly smaller distance, so the first minimum wins. -/
def pickMin (b : Row × ℚ) : List (Row × ℚ) → Row × ℚ
  | [] => b
  | q :: rest => pickMin (if q.2 < b.2 then q else b) rest

/-- Line 65: the candidate at the first minimal distance (none when the
candidate list is empty, i.e. the caliper removed everything). -/
def selectMin : List (Row × ℚ) → Option (Row × ℚ)
  | [] => none
  | p :: ps => some (pickMin p ps)

/-- Lines 41-67: one iteration of the matching loop for a treated row, acting
on the state (consumed control indices, pairs produced so far). -/
def matchStep (dfm : DF) (tCol timeCol : String) (covCols : List String)
    (caliper : Option ℚ) (st : List ℕ × List (ℕ × ℕ)) (tr : Row) :
    Except PdError (List ℕ × List (ℕ × ℕ)) :=
  match getTime tr timeCol with
  | Except.error e => Except.error e
  | Except.ok tt =>
    if (riskSet dfm tCol timeCol st.1 tt).isEmpty then Except.ok st
    else
      match rowCovs tr covCols with
      | Except.error e => Except.error e
      | Except.ok tcov =>
        match candsOf tcov covCols (riskSet dfm tCol timeCol st.1 tt) with
        | Except.error e => Except.error e
        | Except.ok cands =>
          match selectMin (applyCaliper caliper cands) with
          | none => Except.ok st
          | some best =>
            Except.ok (best.1.idx :: st.1, st.2 ++ [(tr.idx, best.1.idx)])

/-- The `for treated_idx in treated_indices` loop (lines 41-67). -/
def matchLoop (dfm : DF) (tCol timeCol : String) (covCols : List String)
    (caliper : Option ℚ) :
    List Row → List ℕ × List (ℕ × ℕ) → Except PdError (List ℕ × List (ℕ × ℕ))
  | [], st => Except.ok st
  | tr :: rest, st =>
    match matchStep dfm tCol timeCol covCols caliper st tr with
    | Except.error e => Except.error e
    | Except.ok st2 => matchLoop dfm tCol timeCol covCols caliper rest st2

/-- Lines 4-69: `balanced_risk_set_matching(df, treatment_col, time_col,
covariate_cols, caliper)`.  Sorts a copy of the table by the time column,
iterates the treated rows (treatment value 1) in sorted order, and greedily
pairs each with the nearest eligible control, consuming it. -/
def balanced_risk_set_matching (df : DF) (tCol timeCol : String)
    (covCols : List String) (caliper : Option ℚ) :
    Except PdError (List (ℕ × ℕ)) :=
  match sortValues df timeCol with
  | Except.error e => Except.error e
  | Except.ok dfm =>
    match colCheck dfm tCol with
    | Except.error e => Except.error e
    | Except.ok _ =>
      match matchLoop dfm tCol timeCol covCols caliper
          (dfm.filter (fun r => decide (r.cell tCol = some (Value.num 1))))
          ([], []) with
      | Except.error e => Except.error e
      | Except.ok st => Except.ok st.2

/-- Scenario A of the specification: four subjects, ids 0..3. -/
def scenarioA : DF :=
  [⟨0, [("treatment", Value.num 1), ("time", Value.num 1), ("x", Value.num 0)]⟩,
   ⟨1, [("treatment", Value.num 0), ("time", Value.num 2), ("x", Value.num 5)]⟩,
   ⟨2, [("treatment", Value.num 1), ("time", Value.num 3), ("x", Value.num 1)]⟩,
   ⟨3, [("treatment", Value.num 0), ("time", Value.num 4), ("x", Value.num 6)]⟩]

/-- Mean of a list (`np.mean`, line 93): `none` models the NaN produced, with
a warning, on an empty array. -/
def np_mean : List ℚ → Option ℚ
  | [] => none
  | x :: xs => some (qdiv (qsum (x :: xs)) (((x :: xs).length : ℕ) : ℚ))

/-- Square of `np.std` (line 94): the population variance -- numpy defaults
to `ddof = 0`, the mean of squared deviations from the mean; `none` models
NaN on an empty array.  The square is carried so the value stays in ℚ; the
reported standard deviation is its real square root. -/
def np_var (l : List ℚ) : Option ℚ :=
  match np_mean l with
  | none => none
  | some m => np_mean (l.map (fun x => qmul (qsub x m) (qsub x m)))

/-- Binary minimum, computably. -/
def qmin (a b : ℚ) : ℚ := if a ≤ b then a else b

/-- Binary maximum, computably. -/
def qmax (a b : ℚ) : ℚ := if a ≤ b then b else a

/-- `np.min` (line 95): raises a ValueError on an empty array. -/
def np_min (l : List ℚ) : Except PdError ℚ :=
  match l with
  | [] => Except.error PdError.valueError
  | x :: xs => Except.ok (xs.foldl qmin x)

/-- `np.max` (line 96): raises a ValueError on an empty array. -/
def np_max (l : List ℚ) : Except PdError ℚ :=
  match l with
  | [] => Except.error PdError.valueError
  | x :: xs => Except.ok (xs.foldl qmax x)

/-- The summary record built by `analyze_matching_results` (lines 91-97).
`meanTimeDiff` and `varTimeDiff` are `none` when numpy would produce NaN;
`varTimeDiff` holds the square of the reported standard deviation. -/
structure Summary where
  totalMatchedPairs : ℕ
  meanTimeDiff : Option ℚ
  varTimeDiff : Option ℚ
  minTimeDiff : ℚ
  maxTimeDiff : ℚ
deriving DecidableEq

/-- Lines 87-88: `df.loc[idx, 'time']` -- looks up the row labelled `idx` and
reads the column literally named "time" (the function does not receive the
matcher's `time_col` parameter).  A missing label or column is a KeyError;
the numpy subtraction that follows rejects non-numeric values. -/
def dfLocTime (df : DF) (i : ℕ) : Except PdError ℚ :=
  match df.find? (fun r => decide (r.idx = i)) with
  | none => Except.error (PdError.labelNotFound i)
  | some r =>
    match r.cell "time" with
    | none => Except.error (PdError.keyError "time")
    | some v =>
      match v.toNum with
      | none => Except.error PdError.typeError
      | some t => Except.ok t

/-- The list comprehensions of lines 87-88, reading one time per index. -/
def locTimes (df : DF) : List ℕ → Except PdError (List ℚ)
  | [] => Except.ok []
  | i :: is =>
    match dfLocTime df i with
    | Except.error e => Except.error e
    | Except.ok t =>
      match locTimes df is with
      | Except.error e => Except.error e
      | Except.ok ts => Except.ok (t :: ts)

/-- Lines 71-99: `analyze_matching_results(matches, df)`.  Computes the
treated-minus-control differences of the literal "time" column and
aggregates count, mean, standard deviation (carried squared), min and max.
Python builds the dict in order: `np.mean` and `np.std` of an empty array
only produce NaN (with a warning), and the first raise comes from `np.min`,
so on an empty match list the function raises instead of returning. -/
def analyze_matching_results (matchesList : List (ℕ × ℕ)) (df : DF) :
    Except PdError Summary :=
  match locTimes df (matchesList.map Prod.fst) with
  | Except.error e => Except.error e
  | Except.ok treated_times =>
    match locTimes df (matchesList.map Prod.snd) with
    | Except.error e => Except.error e
    | Except.ok control_times =>
      match np_min (List.zipWith qsub treated_times control_times) with
      | Except.error e => Except.error e
      | Except.ok mn =>
        match np_max (List.zipWith qsub treated_times control_times) with
        | Except.error e => Except.error e
        | Except.ok mx =>
          Except.ok
            ⟨matchesList.length,
             np_mean (List.zipWith qsub treated_times control_times),
             np_var (List.zipWith qsub treated_times control_times),
             mn, mx⟩

/-- Object-store model for the frame claim: the caller's tables live in a
store of tables; line 34 `df_matched = df.copy()` allocates a fresh table at
the end of the store, line 35 sorts that fresh table in place, and every
later step reads the copy, so the matcher never writes a pre-existing table.
The result component is exactly `balanced_risk_set_matching` applied to the
table read from the store. -/
def heap_run (h : List DF) (i : ℕ) (tCol timeCol : String)
    (covCols : List String) (caliper : Option ℚ) :
    List DF × Except PdError (List (ℕ × ℕ)) :=
  match sortValues (h.getD i []) timeCol with
  | Except.ok dfm =>
    (h ++ [dfm],
     balanced_risk_set_matching (h.getD i []) tCol timeCol covCols caliper)
  | Except.error _ =>
    (h ++ [h.getD i []],
     balanced_risk_set_matching (h.getD i []) tCol timeCol covCols caliper)

/-- A malformed table: the control row (id 1) carries a non-numeric covariate
value, but its time (0) is earlier than the treated row's time (5), so the
matcher never reads that covariate. -/
def badCovTable : DF :=
  [⟨0, [("tr", Value.num 1), ("time", Value.num 5), ("x", Value.num 0)]⟩,
   ⟨1, [("tr", Value.num 0), ("time", Value.num 0), ("x", Value.str "oops")]⟩]

/-- A table whose single row lacks the time column. -/
def noTimeTable : DF :=
  [⟨0, [("tr", Value.num 1), ("x", Value.num 0)]⟩]

/-- Provenance of one returned pair: it was produced by the loop body from a
treated row `tr` of the sorted table and the control selected by the argmin
scan over the caliper-filtered candidates of the risk set that `tr` saw
(for the consumed-control set current at that iteration). -/
def producedPair (dfm : DF) (tCol timeCol : String) (covCols : List String)
    (caliper : Option ℚ) (pr : ℕ × ℕ) : Prop :=
  ∃ tr consumed tt tcov cands best,
    tr ∈ dfm ∧
    tr.cell tCol = some (Value.num 1) ∧
    getTime tr timeCol = Except.ok tt ∧
    rowCovs tr covCols = Except.ok tcov ∧
    candsOf tcov covCols (riskSet dfm tCol timeCol consumed tt) =
      Except.ok cands ∧
    selectMin (applyCaliper caliper cands) = some best ∧
    best.1 ∈ riskSet dfm tCol timeCol consumed tt ∧
    pr = (tr.idx, best.1.idx)

/-- Provenance of one returned pair for a given consumed-control set: unlike
`producedPair`, the consumed set is a parameter, so callers can pin it to the
run's actual loop state -- the iteration that emits the pair at position `k`
runs with the consumed set holding exactly the controls of the `k` earlier
pairs (newest first, as line 67 adds them). -/
def producedPairAt (dfm : DF) (tCol timeCol : String) (covCols : List String)
    (caliper : Option ℚ) (consumed : List ℕ) (pr : ℕ × ℕ) : Prop :=
  ∃ tr tt tcov cands best,
    tr ∈ dfm ∧
    tr.cell tCol = some (Value.num 1) ∧
    getTime tr timeCol = Except.ok tt ∧
    rowCovs tr covCols = Except.ok tcov ∧
    candsOf tcov covCols (riskSet dfm tCol timeCol consumed tt) =
      Except.ok cands ∧
    selectMin (applyCaliper caliper cands) = some best ∧
    pr = (tr.idx, best.1.idx)

/- ------------------------------------------------------------------ -/
/- Theorems.                                                           -/
/- ------------------------------------------------------------------ -/

theorem qadd_eq (a b : ℚ) : qadd a b = a + b := (Rat.add_def' a b).symm

theorem qsub_eq (a b : ℚ) : qsub a b = a - b := (Rat.sub_def' a b).symm

theorem qmul_eq (a b : ℚ) : qmul a b = a * b := by
  rw [qmul, Rat.mul_def, Rat.normalize_eq_mkRat]

theorem qdiv_eq (a b : ℚ) : qdiv a b = a / b := by
  rcases eq_or_ne b 0 with rfl | hb
  · simp [qdiv, Rat.divInt_eq_div]
  · have had : (a.den : ℚ) ≠ 0 := by exact_mod_cast a.den_nz
    have hbd : (b.den : ℚ) ≠ 0 := by exact_mod_cast b.den_nz
    have ha : (a.num : ℚ) = a * a.den := (div_eq_iff had).mp (Rat.num_div_den a)
    have hbn : (b.num : ℚ) = b * b.den := (div_eq_iff hbd).mp (Rat.num_div_den b)
    rw [qdiv, Rat.divInt_eq_div]
    push_cast
    rw [ha, hbn, div_eq_div_iff (mul_ne_zero had (mul_ne_zero hb hbd)) hb]
    ring

theorem qsum_eq : ∀ l : List ℚ, qsum l = l.sum
  | [] => rfl
  | x :: xs => by rw [qsum, qadd_eq, qsum_eq xs, List.sum_cons]

theorem dist2_eq : ∀ xs ys : List ℚ,
    dist2 xs ys = (List.zipWith (fun a b => (a - b) * (a - b)) xs ys).sum
  | [], ys => by cases ys <;> rfl
  | x :: xs, [] => rfl
  | x :: xs, y :: ys => by
    have ih := dist2_eq xs ys
    simp only [dist2, List.zipWith, qsum, qadd_eq, qmul_eq, qsub_eq,
      List.sum_cons] at ih ⊢
    rw [ih]

theorem dist2_nonneg : ∀ xs ys : List ℚ, 0 ≤ dist2 xs ys := by
  intro xs ys
  rw [dist2_eq]
  apply List.sum_nonneg
  intro x hx
  induction xs generalizing ys with
  | nil => simp at hx
  | cons a as ih =>
    cases ys with
    | nil => simp at hx
    | cons b bs =>
      rcases List.mem_cons.mp hx with rfl | hx2
      · exact mul_self_nonneg _
      · exact ih bs hx2

/-- The caliper test of the embedding agrees with the original's comparison
of the Euclidean distance (a real square root) against the caliper. -/
theorem sqrt_le_iff_sq_le (d c : ℚ) (hd : 0 ≤ d) :
    Real.sqrt (d : ℝ) ≤ (c : ℝ) ↔ (0 ≤ c ∧ d ≤ qmul c c) := by
  rw [qmul_eq]
  constructor
  · intro h
    have hc : (0 : ℝ) ≤ (c : ℝ) := le_trans (Real.sqrt_nonneg _) h
    have hcq : (0 : ℚ) ≤ c := by exact_mod_cast hc
    refine ⟨hcq, ?_⟩
    have hdR : ((d : ℚ) : ℝ) ≤ (c : ℝ) * (c : ℝ) := by
      calc ((d : ℚ) : ℝ) = Real.sqrt d * Real.sqrt d := by
            rw [Real.mul_self_sqrt (by exact_mod_cast hd)]
        _ ≤ (c : ℝ) * (c : ℝ) :=
            mul_le_mul h h (Real.sqrt_nonneg _) hc
    exact_mod_cast hdR
  · rintro ⟨h0, hle⟩
    have h0R : (0 : ℝ) ≤ (c : ℝ) := by exact_mod_cast h0
    have hleR : ((d : ℚ) : ℝ) ≤ (c : ℝ) * (c : ℝ) := by exact_mod_cast hle
    calc Real.sqrt (d : ℝ) ≤ Real.sqrt ((c : ℝ) * (c : ℝ)) :=
          Real.sqrt_le_sqrt hleR
      _ = (c : ℝ) := Real.sqrt_mul_self h0R

theorem mem_insertRow {x y : ℚ × Row} :
    ∀ {l : List (ℚ × Row)}, y ∈ insertRow x l ↔ y = x ∨ y ∈ l := by
  intro l
  induction l with
  | nil => simp [insertRow]
  | cons z zs ih =>
    rw [insertRow]
    by_cases h : x.1 ≤ z.1
    · rw [if_pos h]
      simp [List.mem_cons]
    · rw [if_neg h]
      simp only [List.mem_cons, ih]
      tauto

theorem mem_sortRows {y : ℚ × Row} :
    ∀ {l : List (ℚ × Row)}, y ∈ sortRows l ↔ y ∈ l := by
  intro l
  induction l with
  | nil => simp [sortRows]
  | cons z zs ih =>
    show y ∈ insertRow z (sortRows zs) ↔ _
    rw [mem_insertRow]
    simp only [List.mem_cons, ih]

theorem keyRows_mem {timeCol : String} :
    ∀ {df : List Row} {keyed : List (ℚ × Row)},
      keyRows timeCol df = Except.ok keyed →
      ∀ p ∈ keyed, p.2 ∈ df ∧ getTime p.2 timeCol = Except.ok p.1 := by
  intro df
  induction df with
  | nil =>
    intro keyed h p hp
    rw [keyRows] at h
    cases h
    simp at hp
  | cons r rs ih =>
    intro keyed h p hp
    rw [keyRows] at h
    cases h1 : getTime r timeCol with
    | error e => rw [h1] at h; cases h
    | ok t =>
      rw [h1] at h
      cases h2 : keyRows timeCol rs with
      | error e => rw [h2] at h; cases h
      | ok l =>
        rw [h2] at h
        cases h
        rcases List.mem_cons.mp hp with rfl | hp2
        · exact ⟨List.mem_cons_self r rs, h1⟩
        · have := ih h2 p hp2
          exact ⟨List.mem_cons_of_mem r this.1, this.2⟩

theorem keyRows_complete {timeCol : String} :
    ∀ {df : List Row} {keyed : List (ℚ × Row)},
      keyRows timeCol df = Except.ok keyed →
      ∀ r ∈ df, ∃ t, getTime r timeCol = Except.ok t ∧ (t, r) ∈ keyed := by
  intro df
  induction df with
  | nil =>
    intro keyed h r hr
    simp at hr
  | cons r0 rs ih =>
    intro keyed h r hr
    rw [keyRows] at h
    cases h1 : getTime r0 timeCol with
    | error e => rw [h1] at h; cases h
    | ok t =>
      rw [h1] at h
      cases h2 : keyRows timeCol rs with
      | error e => rw [h2] at h; cases h
      | ok l =>
        rw [h2] at h
        cases h
        rcases List.mem_cons.mp hr with rfl | hr2
        · exact ⟨t, h1, List.mem_cons_self _ _⟩
        · obtain ⟨t2, ht2, hmem⟩ := ih h2 r hr2
          exact ⟨t2, ht2, List.mem_cons_of_mem _ hmem⟩

theorem keyRows_error {timeCol : String} {r : Row} :
    ∀ {df : List Row}, r ∈ df → r.cell timeCol = none →
      ∃ e, keyRows timeCol df = Except.error e := by
  intro df
  induction df with
  | nil => intro hr; simp at hr
  | cons r0 rs ih =>
    intro hr hc
    cases h1 : getTime r0 timeCol with
    | error e => exact ⟨e, by rw [keyRows, h1]⟩
    | ok t =>
      have hr2 : r ∈ rs := by
        rcases List.mem_cons.mp hr with rfl | hr2
        · rw [getTime, hc] at h1; cases h1
        · exact hr2
      obtain ⟨e, he⟩ := ih hr2 hc
      exact ⟨e, by rw [keyRows, h1, he]⟩

theorem sortValues_mem {df : DF} {timeCol : String} {dfm : DF}
    (h : sortValues df timeCol = Except.ok dfm) :
    ∀ r : Row, r ∈ dfm ↔ r ∈ df := by
  intro r
  rw [sortValues] at h
  cases hk : keyRows timeCol df with
  | error e => rw [hk] at h; cases h
  | ok keyed =>
    rw [hk] at h
    cases h
    constructor
    · intro hr
      obtain ⟨p, hp, hpr⟩ := List.mem_map.mp hr
      have := keyRows_mem hk p (mem_sortRows.mp hp)
      rw [← hpr]
      exact this.1
    · intro hr
      obtain ⟨t, -, hmem⟩ := keyRows_complete hk r hr
      exact List.mem_map.mpr ⟨(t, r), mem_sortRows.mpr hmem, rfl⟩

theorem sortValues_getTime {df : DF} {timeCol : String} {dfm : DF}
    (h : sortValues df timeCol = Except.ok dfm) :
    ∀ r ∈ dfm, ∃ t, getTime r timeCol = Except.ok t := by
  intro r hr
  rw [sortValues] at h
  cases hk : keyRows timeCol df with
  | error e => rw [hk] at h; cases h
  | ok keyed =>
    rw [hk] at h
    cases h
    obtain ⟨p, hp, hpr⟩ := List.mem_map.mp hr
    have := keyRows_mem hk p (mem_sortRows.mp hp)
    exact ⟨p.1, by rw [← hpr]; exact this.2⟩

theorem colCheck_error {dfm : DF} {c : String} {r : Row}
    (hr : r ∈ dfm) (hc : r.cell c = none) :
    colCheck dfm c = Except.error (PdError.keyError c) := by
  rw [colCheck, if_neg]
  intro hall
  have := List.all_eq_true.mp hall r hr
  rw [hc] at this
  cases this

theorem timeGe_iff {r : Row} {timeCol : String} {tt : ℚ} :
    timeGe r timeCol tt = true ↔
      ∃ t, getTime r timeCol = Except.ok t ∧ tt ≤ t := by
  rw [timeGe]
  cases h : getTime r timeCol with
  | error e => simp
  | ok t => simp

theorem mem_riskSet {dfm : DF} {tCol timeCol : String} {consumed : List ℕ}
    {tt : ℚ} {r : Row} :
    r ∈ riskSet dfm tCol timeCol consumed tt ↔
      r ∈ dfm ∧ (∃ t, getTime r timeCol = Except.ok t ∧ tt ≤ t) ∧
        r.cell tCol = some (Value.num 0) ∧ r.idx ∉ consumed := by
  rw [riskSet, List.mem_filter]
  simp only [Bool.and_eq_true, decide_eq_true_eq, timeGe_iff, and_assoc]

theorem candsOf_mem {tcov : List ℚ} {covCols : List String} :
    ∀ {rs : List Row} {cands : List (Row × ℚ)},
      candsOf tcov covCols rs = Except.ok cands →
      ∀ p ∈ cands, p.1 ∈ rs ∧
        ∃ cv, rowCovs p.1 covCols = Except.ok cv ∧ p.2 = dist2 tcov cv := by
  intro rs
  induction rs with
  | nil =>
    intro cands h p hp
    rw [candsOf] at h
    cases h
    simp at hp
  | cons r rest ih =>
    intro cands h p hp
    rw [candsOf] at h
    cases h1 : rowCovs r covCols with
    | error e => rw [h1] at h; cases h
    | ok cv =>
      rw [h1] at h
      cases h2 : candsOf tcov covCols rest with
      | error e => rw [h2] at h; cases h
      | ok l =>
        rw [h2] at h
        cases h
        rcases List.mem_cons.mp hp with rfl | hp2
        · exact ⟨List.mem_cons_self r rest, cv, h1, rfl⟩
        · have := ih h2 p hp2
          exact ⟨List.mem_cons_of_mem r this.1, this.2⟩

theorem applyCaliper_subset {caliper : Option ℚ} {cands : List (Row × ℚ)}
    {p : Row × ℚ} (hp : p ∈ applyCaliper caliper cands) : p ∈ cands := by
  cases caliper with
  | none => exact hp
  | some c => exact List.mem_of_mem_filter hp

theorem applyCaliper_bound {c : ℚ} {cands : List (Row × ℚ)} {p : Row × ℚ}
    (hp : p ∈ applyCaliper (some c) cands) : 0 ≤ c ∧ p.2 ≤ qmul c c := by
  have := List.of_mem_filter hp
  simpa using this

theorem pickMin_le_start : ∀ (l : List (Row × ℚ)) (b : Row × ℚ),
    (pickMin b l).2 ≤ b.2
  | [], b => le_refl _
  | q :: rest, b => by
    rw [pickMin]
    by_cases hq : q.2 < b.2
    · rw [if_pos hq]
      exact le_trans (pickMin_le_start rest q) (le_of_lt hq)
    · rw [if_neg hq]
      exact pickMin_le_start rest b

theorem pickMin_spec : ∀ (l : List (Row × ℚ)) (b : Row × ℚ),
    ∃ l1 l2, b :: l = l1 ++ pickMin b l :: l2 ∧
      (∀ q ∈ l1, (pickMin b l).2 < q.2) ∧
      (∀ q ∈ l2, (pickMin b l).2 ≤ q.2)
  | [], b => ⟨[], [], rfl, by simp, by simp⟩
  | q :: rest, b => by
    rw [pickMin]
    by_cases hq : q.2 < b.2
    · rw [if_pos hq]
      obtain ⟨l1, l2, heq, h1, h2⟩ := pickMin_spec rest q
      refine ⟨b :: l1, l2, ?_, ?_, h2⟩
      · rw [List.cons_append, ← heq]
      · intro x hx
        have hmq : (pickMin q rest).2 ≤ q.2 := pickMin_le_start rest q
        rcases List.mem_cons.mp hx with rfl | hx2
        · exact lt_of_le_of_lt hmq hq
        · exact h1 x hx2
    · rw [if_neg hq]
      obtain ⟨l1, l2, heq, h1, h2⟩ := pickMin_spec rest b
      cases l1 with
      | nil =>
        injection heq with hb hrest
        refine ⟨[], q :: rest, ?_, by simp, ?_⟩
        · rw [List.nil_append, ← hb]
        · intro x hx
          rcases List.mem_cons.mp hx with rfl | hx2
          · rw [← hb]; exact not_lt.mp hq
          · rw [hrest] at hx2
            exact h2 x hx2
      | cons a l1s =>
        rw [List.cons_append] at heq
        injection heq with hb hrest
        refine ⟨b :: q :: l1s, l2, ?_, ?_, h2⟩
        · rw [List.cons_append, List.cons_append, ← hrest]
        · have hmb : (pickMin b rest).2 < b.2 := by
            apply h1
            rw [hb]
            exact List.mem_cons_self a l1s
          intro x hx
          rcases List.mem_cons.mp hx with rfl | hx2
          · exact hmb
          · rcases List.mem_cons.mp hx2 with rfl | hx3
            · exact lt_of_lt_of_le hmb (not_lt.mp hq)
            · exact h1 x (List.mem_cons_of_mem a hx3)

theorem selectMin_spec {l : List (Row × ℚ)} {p : Row × ℚ}
    (h : selectMin l = some p) :
    ∃ l1 l2, l = l1 ++ p :: l2 ∧
      (∀ q ∈ l1, p.2 < q.2) ∧ (∀ q ∈ l2, p.2 ≤ q.2) := by
  cases l with
  | nil => cases h
  | cons b rest =>
    rw [selectMin] at h
    injection h with hp
    rw [← hp]
    exact pickMin_spec rest b

theorem selectMin_mem {l : List (Row × ℚ)} {p : Row × ℚ}
    (h : selectMin l = some p) : p ∈ l := by
  obtain ⟨l1, l2, heq, -, -⟩ := selectMin_spec h
  rw [heq]
  exact List.mem_append_right l1 (List.mem_cons_self p l2)

theorem selectMin_le {l : List (Row × ℚ)} {p : Row × ℚ}
    (h : selectMin l = some p) : ∀ q ∈ l, p.2 ≤ q.2 := by
  obtain ⟨l1, l2, heq, h1, h2⟩ := selectMin_spec h
  intro q hq
  rw [heq] at hq
  rcases List.mem_append.mp hq with hq1 | hq2
  · exact le_of_lt (h1 q hq1)
  · rcases List.mem_cons.mp hq2 with rfl | hq3
    · exact le_refl _
    · exact h2 q hq3

/-- Inversion of one loop iteration: a successful step either leaves the
state unchanged (empty risk set, or caliper-exhausted candidates) or appends
exactly one pair whose control is the argmin selection, consuming it. -/
theorem matchStep_ok {dfm : DF} {tCol timeCol : String} {covCols : List String}
    {caliper : Option ℚ} {st st2 : List ℕ × List (ℕ × ℕ)} {tr : Row}
    (h : matchStep dfm tCol timeCol covCols caliper st tr = Except.ok st2) :
    st2 = st ∨
      ∃ tt tcov cands best,
        getTime tr timeCol = Except.ok tt ∧
        rowCovs tr covCols = Except.ok tcov ∧
        candsOf tcov covCols (riskSet dfm tCol timeCol st.1 tt) =
          Except.ok cands ∧
        selectMin (applyCaliper caliper cands) = some best ∧
        st2 = (best.1.idx :: st.1, st.2 ++ [(tr.idx, best.1.idx)]) := by
  rw [matchStep] at h
  cases h1 : getTime tr timeCol with
  | error e => rw [h1] at h; cases h
  | ok tt =>
    rw [h1] at h
    dsimp only at h
    by_cases hrs : (riskSet dfm tCol timeCol st.1 tt).isEmpty = true
    · rw [if_pos hrs] at h
      cases h
      exact Or.inl rfl
    · rw [if_neg hrs] at h
      cases h2 : rowCovs tr covCols with
      | error e => rw [h2] at h; cases h
      | ok tcov =>
        rw [h2] at h
        dsimp only at h
        cases h3 : candsOf tcov covCols (riskSet dfm tCol timeCol st.1 tt) with
        | error e => rw [h3] at h; cases h
        | ok cands =>
          rw [h3] at h
          dsimp only at h
          cases h4 : selectMin (applyCaliper caliper cands) with
          | none =>
            rw [h4] at h
            cases h
            exact Or.inl rfl
          | some best =>
            rw [h4] at h
            dsimp only at h
            cases h
            exact Or.inr ⟨tt, tcov, cands, best, rfl, rfl, h3, h4, rfl⟩

/-- Loop invariant for the uniqueness claim: every control already paired is
in the consumed set, and the paired controls are distinct; both are
preserved by each iteration. -/
theorem matchLoop_nodup {dfm : DF} {tCol timeCol : String}
    {covCols : List String} {caliper : Option ℚ} :
    ∀ {todo : List Row} {st res : List ℕ × List (ℕ × ℕ)},
      matchLoop dfm tCol timeCol covCols caliper todo st = Except.ok res →
      (∀ c ∈ st.2.map Prod.snd, c ∈ st.1) →
      (st.2.map Prod.snd).Nodup →
      (∀ c ∈ res.2.map Prod.snd, c ∈ res.1) ∧ (res.2.map Prod.snd).Nodup := by
  intro todo
  induction todo with
  | nil =>
    intro st res h hsub hnd
    rw [matchLoop] at h
    cases h
    exact ⟨hsub, hnd⟩
  | cons tr rest ih =>
    intro st res h hsub hnd
    rw [matchLoop] at h
    cases hstep : matchStep dfm tCol timeCol covCols caliper st tr with
    | error e => rw [hstep] at h; cases h
    | ok st2 =>
      rw [hstep] at h
      rcases matchStep_ok hstep with rfl |
        ⟨tt, tcov, cands, best, h1, h2, h3, h4, rfl⟩
      · exact ih h hsub hnd
      · have hbestrs : best.1 ∈ riskSet dfm tCol timeCol st.1 tt :=
          (candsOf_mem h3 best (applyCaliper_subset (selectMin_mem h4))).1
        have hnotin : best.1.idx ∉ st.1 := (mem_riskSet.mp hbestrs).2.2.2
        have hnotpaired : best.1.idx ∉ st.2.map Prod.snd := fun hmem =>
          hnotin (hsub _ hmem)
        apply ih h
        · intro c hc
          rw [List.map_append] at hc
          rcases List.mem_append.mp hc with hc1 | hc2
          · exact List.mem_cons_of_mem _ (hsub c hc1)
          · simp only [List.map_cons, List.map_nil, List.mem_singleton] at hc2
            rw [hc2]
            exact List.mem_cons_self _ _
        · rw [List.map_append]
          rw [List.nodup_append]
          refine ⟨hnd, List.nodup_singleton _, ?_⟩
          intro a ha hb
          simp only [List.map_cons, List.map_nil, List.mem_singleton] at hb
          rw [hb] at ha
          exact hnotpaired ha

/-- Loop invariant for provenance: every pair in the final state either was
already present or was produced by some iteration of the loop body. -/
theorem matchLoop_produced {dfm : DF} {tCol timeCol : String}
    {covCols : List String} {caliper : Option ℚ} :
    ∀ {todo : List Row} {st res : List ℕ × List (ℕ × ℕ)},
      matchLoop dfm tCol timeCol covCols caliper todo st = Except.ok res →
      (∀ r ∈ todo, r ∈ dfm ∧ r.cell tCol = some (Value.num 1)) →
      (∀ pr ∈ st.2, producedPair dfm tCol timeCol covCols caliper pr) →
      ∀ pr ∈ res.2, producedPair dfm tCol timeCol covCols caliper pr := by
  intro todo
  induction todo with
  | nil =>
    intro st res h htodo hst
    rw [matchLoop] at h
    cases h
    exact hst
  | cons tr rest ih =>
    intro st res h htodo hst
    rw [matchLoop] at h
    cases hstep : matchStep dfm tCol timeCol covCols caliper st tr with
    | error e => rw [hstep] at h; cases h
    | ok st2 =>
      rw [hstep] at h
      have htodo2 : ∀ r ∈ rest, r ∈ dfm ∧ r.cell tCol = some (Value.num 1) :=
        fun r hr => htodo r (List.mem_cons_of_mem tr hr)
      rcases matchStep_ok hstep with rfl |
        ⟨tt, tcov, cands, best, h1, h2, h3, h4, rfl⟩
      · exact ih h htodo2 hst
      · apply ih h htodo2
        intro pr hpr
        rcases List.mem_append.mp hpr with hpr1 | hpr2
        · exact hst pr hpr1
        · have hbestrs : best.1 ∈ riskSet dfm tCol timeCol st.1 tt :=
            (candsOf_mem h3 best (applyCaliper_subset (selectMin_mem h4))).1
          have htr := htodo tr (List.mem_cons_self tr rest)
          simp only [List.mem_singleton] at hpr2
          exact ⟨tr, st.1, tt, tcov, cands, best,
            htr.1, htr.2, h1, h2, h3, h4, hbestrs, hpr2⟩

/-- The loop only appends to the pair list: the final pair list extends the
initial one. -/
theorem matchLoop_append {dfm : DF} {tCol timeCol : String}
    {covCols : List String} {caliper : Option ℚ} :
    ∀ {todo : List Row} {st res : List ℕ × List (ℕ × ℕ)},
      matchLoop dfm tCol timeCol covCols caliper todo st = Except.ok res →
      ∃ tail, res.2 = st.2 ++ tail := by
  intro todo
  induction todo with
  | nil =>
    intro st res h
    rw [matchLoop] at h
    cases h
    exact ⟨[], (List.append_nil _).symm⟩
  | cons tr rest ih =>
    intro st res h
    rw [matchLoop] at h
    cases hstep : matchStep dfm tCol timeCol covCols caliper st tr with
    | error e => rw [hstep] at h; cases h
    | ok st2 =>
      rw [hstep] at h
      obtain ⟨tail, htail⟩ := ih h
      rcases matchStep_ok hstep with rfl |
        ⟨tt, tcov, cands, best, h1, h2, h3, h4, rfl⟩
      · exact ⟨tail, htail⟩
      · refine ⟨(tr.idx, best.1.idx) :: tail, ?_⟩
        rw [htail]
        show (st.2 ++ [(tr.idx, best.1.idx)]) ++ tail = _
        rw [List.append_assoc]
        rfl

/-- Loop invariant pinning each produced pair to the loop's actual state: if
the consumed set mirrors the controls already paired (newest first), then the
pair at any position `pre.length` of the final list was produced with the
consumed set holding exactly the controls of the pairs `pre` before it. -/
theorem matchLoop_producedAt {dfm : DF} {tCol timeCol : String}
    {covCols : List String} {caliper : Option ℚ} :
    ∀ {todo : List Row} {st res : List ℕ × List (ℕ × ℕ)},
      matchLoop dfm tCol timeCol covCols caliper todo st = Except.ok res →
      (∀ r ∈ todo, r ∈ dfm ∧ r.cell tCol = some (Value.num 1)) →
      st.1 = (st.2.map Prod.snd).reverse →
      ∀ pre pr post, res.2 = pre ++ pr :: post →
        st.2.length ≤ pre.length →
        producedPairAt dfm tCol timeCol covCols caliper
          ((pre.map Prod.snd).reverse) pr := by
  intro todo
  induction todo with
  | nil =>
    intro st res h htodo hco pre pr post hdec hlen
    rw [matchLoop] at h
    cases h
    have hlength := congrArg List.length hdec
    simp only [List.length_append, List.length_cons] at hlength
    omega
  | cons tr rest ih =>
    intro st res h htodo hco pre pr post hdec hlen
    rw [matchLoop] at h
    cases hstep : matchStep dfm tCol timeCol covCols caliper st tr with
    | error e => rw [hstep] at h; cases h
    | ok st2 =>
      rw [hstep] at h
      have htodo2 : ∀ r ∈ rest, r ∈ dfm ∧ r.cell tCol = some (Value.num 1) :=
        fun r hr => htodo r (List.mem_cons_of_mem tr hr)
      rcases matchStep_ok hstep with rfl |
        ⟨tt, tcov, cands, best, h1, h2, h3, h4, rfl⟩
      · exact ih h htodo2 hco pre pr post hdec hlen
      · have hco2 : best.1.idx :: st.1 =
            (((st.2 ++ [(tr.idx, best.1.idx)]).map Prod.snd).reverse) := by
          rw [List.map_append, List.reverse_append, hco]
          rfl
        rcases Nat.lt_or_ge pre.length
            (st.2 ++ [(tr.idx, best.1.idx)]).length with hlt | hge
        · have hpl : pre.length = st.2.length := by
            rw [List.length_append, List.length_cons, List.length_nil] at hlt
            omega
          obtain ⟨tail, htail⟩ := matchLoop_append h
          dsimp only at htail
          rw [hdec] at htail
          rw [List.append_assoc] at htail
          obtain ⟨hpre_eq, hrest_eq⟩ := List.append_inj htail hpl
          rw [List.singleton_append] at hrest_eq
          have hpr_eq : pr = (tr.idx, best.1.idx) := by
            injection hrest_eq with hhead htail2
            try exact hhead
          have hcons : (pre.map Prod.snd).reverse = st.1 := by
            rw [hpre_eq, ← hco]
          have htr := htodo tr (List.mem_cons_self tr rest)
          refine ⟨tr, tt, tcov, cands, best, htr.1, htr.2, h1, h2, ?_,
            h4, hpr_eq⟩
          rw [hcons]
          exact h3
        · exact ih h htodo2 hco2 pre pr post hdec hge

/-- Inversion of the top-level function: a successful run factors through a
successful sort and a successful loop over the treated rows. -/
theorem bmatch_ok {df : DF} {tCol timeCol : String} {covCols : List String}
    {caliper : Option ℚ} {pairs : List (ℕ × ℕ)}
    (h : balanced_risk_set_matching df tCol timeCol covCols caliper =
      Except.ok pairs) :
    ∃ dfm st, sortValues df timeCol = Except.ok dfm ∧
      matchLoop dfm tCol timeCol covCols caliper
        (dfm.filter (fun r => decide (r.cell tCol = some (Value.num 1))))
        ([], []) = Except.ok st ∧
      pairs = st.2 := by
  rw [balanced_risk_set_matching] at h
  cases h1 : sortValues df timeCol with
  | error e => rw [h1] at h; cases h
  | ok dfm =>
    rw [h1] at h
    dsimp only at h
    cases h2 : colCheck dfm tCol with
    | error e => rw [h2] at h; cases h
    | ok u =>
      rw [h2] at h
      dsimp only at h
      cases h3 : matchLoop dfm tCol timeCol covCols caliper
          (dfm.filter (fun r => decide (r.cell tCol = some (Value.num 1))))
          ([], []) with
      | error e => rw [h3] at h; cases h
      | ok st =>
        rw [h3] at h
        dsimp only at h
        cases h
        exact ⟨dfm, st, rfl, h3, rfl⟩

/-- Every row of the treated-row worklist is a treated row of the sorted
table. -/
theorem treatedRows_mem {dfm : DF} {tCol : String} {r : Row}
    (hr : r ∈ dfm.filter (fun r => decide (r.cell tCol = some (Value.num 1)))) :
    r ∈ dfm ∧ r.cell tCol = some (Value.num 1) := by
  have := List.mem_filter.mp hr
  exact ⟨this.1, by simpa using this.2⟩

/-- Claim C1: for every input table and caliper setting, no control index
appears in more than one pair returned by `balanced_risk_set_matching`; the
second components of the returned pairs are pairwise distinct, because a
selected control joins the consumed set and is excluded from every later
risk set. -/
theorem claim_C1_controls_unique (df : DF) (tCol timeCol : String)
    (covCols : List String) (caliper : Option ℚ) (pairs : List (ℕ × ℕ))
    (h : balanced_risk_set_matching df tCol timeCol covCols caliper =
      Except.ok pairs) :
    (pairs.map Prod.snd).Nodup := by
  obtain ⟨dfm, st, h1, h2, rfl⟩ := bmatch_ok h
  exact (matchLoop_nodup h2 (by simp) (by simp)).2

/-- Witness for C1: the Scenario A run, whose two pairs use the distinct
controls 1 and 3. -/
theorem claim_C1_witness :
    balanced_risk_set_matching scenarioA "treatment" "time" ["x"] none =
      Except.ok [(0, 1), (2, 3)] ∧
    (([(0, 1), (2, 3)] : List (ℕ × ℕ)).map Prod.snd).Nodup :=
  ⟨by decide, claim_C1_controls_unique scenarioA "treatment" "time" ["x"] none
    [(0, 1), (2, 3)] (by decide)⟩

/-- Claim C2: every returned pair consists of a treated row (treatment value
1) and a control row (treatment value 0) of the input table, and the
control's time is no earlier than the treated subject's time. -/
theorem claim_C2_time_and_treatment (df : DF) (tCol timeCol : String)
    (covCols : List String) (caliper : Option ℚ) (pairs : List (ℕ × ℕ))
    (h : balanced_risk_set_matching df tCol timeCol covCols caliper =
      Except.ok pairs) :
    ∀ pr ∈ pairs, ∃ tr cr tt ct,
      tr ∈ df ∧ cr ∈ df ∧
      pr = (tr.idx, cr.idx) ∧
      tr.cell tCol = some (Value.num 1) ∧
      cr.cell tCol = some (Value.num 0) ∧
      getTime tr timeCol = Except.ok tt ∧
      getTime cr timeCol = Except.ok ct ∧
      tt ≤ ct := by
  obtain ⟨dfm, st, h1, h2, rfl⟩ := bmatch_ok h
  intro pr hpr
  have hprod := matchLoop_produced h2
    (fun r hr => treatedRows_mem hr) (by simp) pr hpr
  obtain ⟨tr, consumed, tt, tcov, cands, best, htr, htreat, htt, -, -, -,
    hbrs, hpr_eq⟩ := hprod
  have hrs := mem_riskSet.mp hbrs
  obtain ⟨ct, hct, hle⟩ := hrs.2.1
  exact ⟨tr, best.1, tt, ct, (sortValues_mem h1 tr).mp htr,
    (sortValues_mem h1 best.1).mp hrs.1, hpr_eq, htreat, hrs.2.2.1,
    htt, hct, hle⟩

/-- Witness for C2: the Scenario A run at its first pair (0, 1). -/
theorem claim_C2_witness :
    balanced_risk_set_matching scenarioA "treatment" "time" ["x"] none =
      Except.ok [(0, 1), (2, 3)] ∧
    (∃ tr cr tt ct, tr ∈ scenarioA ∧ cr ∈ scenarioA ∧
      ((0, 1) : ℕ × ℕ) = (tr.idx, cr.idx) ∧
      tr.cell "treatment" = some (Value.num 1) ∧
      cr.cell "treatment" = some (Value.num 0) ∧
      getTime tr "time" = Except.ok tt ∧
      getTime cr "time" = Except.ok ct ∧
      tt ≤ ct) :=
  ⟨by decide, claim_C2_time_and_treatment scenarioA "treatment" "time" ["x"]
    none [(0, 1), (2, 3)] (by decide) (0, 1) (by decide)⟩

/-- Claim C5: on the four-subject Scenario A table with no caliper, the
matcher returns exactly [(0, 1), (2, 3)]: treated 0 takes control 1 and
treated 2, whose risk set no longer contains the consumed control 1, takes
control 3. -/
theorem claim_C5_scenarioA :
    balanced_risk_set_matching scenarioA "treatment" "time" ["x"] none =
      Except.ok [(0, 1), (2, 3)] := by decide

/-- Claim C3: when a caliper `c` is supplied, the Euclidean distance between
the covariate vectors of the two rows of every returned pair is at most `c`
(candidates beyond the caliper are discarded before selection, and a treated
subject left without candidates is skipped, not an error -- the skip path is
the `selectMin = none` branch of `matchStep`, which returns the state
unchanged inside `Except.ok`). -/
theorem claim_C3_caliper_bound (df : DF) (tCol timeCol : String)
    (covCols : List String) (c : ℚ) (pairs : List (ℕ × ℕ))
    (h : balanced_risk_set_matching df tCol timeCol covCols (some c) =
      Except.ok pairs) :
    (∀ pr ∈ pairs, ∃ tr cr tcov ccov,
      tr ∈ df ∧ cr ∈ df ∧
      pr = (tr.idx, cr.idx) ∧
      rowCovs tr covCols = Except.ok tcov ∧
      rowCovs cr covCols = Except.ok ccov ∧
      Real.sqrt ((dist2 tcov ccov : ℚ) : ℝ) ≤ (c : ℝ)) ∧
    (∀ (dfm : DF) (st : List ℕ × List (ℕ × ℕ)) (tr : Row) (tt : ℚ)
        (tcov : List ℚ) (cands : List (Row × ℚ)),
      getTime tr timeCol = Except.ok tt →
      rowCovs tr covCols = Except.ok tcov →
      candsOf tcov covCols (riskSet dfm tCol timeCol st.1 tt) =
        Except.ok cands →
      applyCaliper (some c) cands = [] →
      matchStep dfm tCol timeCol covCols (some c) st tr = Except.ok st) := by
  constructor
  · obtain ⟨dfm, st, h1, h2, rfl⟩ := bmatch_ok h
    intro pr hpr
    have hprod := matchLoop_produced h2
      (fun r hr => treatedRows_mem hr) (by simp) pr hpr
    obtain ⟨tr, consumed, tt, tcov, cands, best, htr, htreat, htt, htcov,
      hcands, hsel, hbrs, hpr_eq⟩ := hprod
    have hkept := selectMin_mem hsel
    have hmemc := applyCaliper_subset hkept
    obtain ⟨hin_rs, ccov, hccov, hd2⟩ := candsOf_mem hcands best hmemc
    obtain ⟨h0c, hbound⟩ := applyCaliper_bound hkept
    refine ⟨tr, best.1, tcov, ccov, (sortValues_mem h1 tr).mp htr,
      (sortValues_mem h1 best.1).mp (mem_riskSet.mp hbrs).1, hpr_eq,
      htcov, hccov, ?_⟩
    apply (sqrt_le_iff_sq_le (dist2 tcov ccov) c
      (dist2_nonneg tcov ccov)).mpr
    exact ⟨h0c, hd2 ▸ hbound⟩
  · intro dfm st tr tt tcov cands hgt hrc hco hemp
    rw [matchStep, hgt]
    dsimp only
    by_cases hrs : (riskSet dfm tCol timeCol st.1 tt).isEmpty = true
    · rw [if_pos hrs]
    · rw [if_neg hrs, hrc]
      dsimp only
      rw [hco]
      dsimp only
      rw [hemp]
      rfl

/-- Witness for C3: Scenario A with caliper 5 still pairs (0, 1) -- the
distance 5 is within the caliper -- and the bound holds at that pair. -/
theorem claim_C3_witness :
    balanced_risk_set_matching scenarioA "treatment" "time" ["x"]
      (some 5) = Except.ok [(0, 1), (2, 3)] ∧
    (∃ tr cr tcov ccov, tr ∈ scenarioA ∧ cr ∈ scenarioA ∧
      ((0, 1) : ℕ × ℕ) = (tr.idx, cr.idx) ∧
      rowCovs tr ["x"] = Except.ok tcov ∧
      rowCovs cr ["x"] = Except.ok ccov ∧
      Real.sqrt ((dist2 tcov ccov : ℚ) : ℝ) ≤ ((5 : ℚ) : ℝ)) :=
  ⟨by decide, (claim_C3_caliper_bound scenarioA "treatment" "time" ["x"] 5
    [(0, 1), (2, 3)] (by decide)).1 (0, 1) (by decide)⟩

/-- Claim C7: every returned pair's control is the argmin of the Euclidean
distance over the caliper-filtered candidate list of that treated subject's
risk set, and on exact ties the candidate appearing first in the risk set's
enumeration order is selected: the selected entry splits the candidate list
so that everything before it is strictly farther and everything after it no
closer. -/
theorem claim_C7_min_dist_first_tie (df : DF) (tCol timeCol : String)
    (covCols : List String) (caliper : Option ℚ) (pairs : List (ℕ × ℕ))
    (h : balanced_risk_set_matching df tCol timeCol covCols caliper =
      Except.ok pairs) :
    ∀ pre pr post, pairs = pre ++ pr :: post →
      ∃ dfm tr tt tcov cands best,
        sortValues df timeCol = Except.ok dfm ∧
        tr ∈ dfm ∧
        tr.cell tCol = some (Value.num 1) ∧
        getTime tr timeCol = Except.ok tt ∧
        rowCovs tr covCols = Except.ok tcov ∧
        candsOf tcov covCols
          (riskSet dfm tCol timeCol ((pre.map Prod.snd).reverse) tt) =
          Except.ok cands ∧
        selectMin (applyCaliper caliper cands) = some best ∧
        pr = (tr.idx, best.1.idx) ∧
        (∀ q ∈ applyCaliper caliper cands,
          Real.sqrt ((best.2 : ℚ) : ℝ) ≤ Real.sqrt ((q.2 : ℚ) : ℝ)) ∧
        ∃ l1 l2, applyCaliper caliper cands = l1 ++ best :: l2 ∧
          ∀ q ∈ l1,
            Real.sqrt ((best.2 : ℚ) : ℝ) < Real.sqrt ((q.2 : ℚ) : ℝ) := by
  obtain ⟨dfm, st, h1, h2, rfl⟩ := bmatch_ok h
  intro pre pr post hdec
  have hprod := matchLoop_producedAt h2
    (fun r hr => treatedRows_mem hr) rfl pre pr post hdec (Nat.zero_le _)
  obtain ⟨tr, tt, tcov, cands, best, htr, htreat, htt, htcov,
    hcands, hsel, hpr_eq⟩ := hprod
  have hbest_nonneg : 0 ≤ best.2 := by
    obtain ⟨-, ccov, -, hd2⟩ :=
      candsOf_mem hcands best (applyCaliper_subset (selectMin_mem hsel))
    rw [hd2]
    exact dist2_nonneg tcov ccov
  obtain ⟨l1, l2, hsplit, hlt, hle⟩ := selectMin_spec hsel
  refine ⟨dfm, tr, tt, tcov, cands, best, h1, htr, htreat, htt,
    htcov, hcands, hsel, hpr_eq, ?_, l1, l2, hsplit, ?_⟩
  · intro q hq
    apply Real.sqrt_le_sqrt
    exact_mod_cast selectMin_le hsel q hq
  · intro q hq
    apply Real.sqrt_lt_sqrt (by exact_mod_cast hbest_nonneg)
    exact_mod_cast hlt q hq

/-- Witness for C7: the Scenario A run at its first pair (0, 1), i.e. the
decomposition [(0,1),(2,3)] = [] ++ (0,1) :: [(2,3)], whose consumed set is
the empty one. -/
theorem claim_C7_witness :
    balanced_risk_set_matching scenarioA "treatment" "time" ["x"] none =
      Except.ok [(0, 1), (2, 3)] ∧
    (∃ dfm tr tt tcov cands best,
      sortValues scenarioA "time" = Except.ok dfm ∧
      tr ∈ dfm ∧
      tr.cell "treatment" = some (Value.num 1) ∧
      getTime tr "time" = Except.ok tt ∧
      rowCovs tr ["x"] = Except.ok tcov ∧
      candsOf tcov ["x"]
        (riskSet dfm "treatment" "time"
          (((([] : List (ℕ × ℕ))).map Prod.snd).reverse) tt) =
        Except.ok cands ∧
      selectMin (applyCaliper none cands) = some best ∧
      ((0, 1) : ℕ × ℕ) = (tr.idx, best.1.idx) ∧
      (∀ q ∈ applyCaliper none cands,
        Real.sqrt ((best.2 : ℚ) : ℝ) ≤ Real.sqrt ((q.2 : ℚ) : ℝ)) ∧
      ∃ l1 l2, applyCaliper none cands = l1 ++ best :: l2 ∧
        ∀ q ∈ l1,
          Real.sqrt ((best.2 : ℚ) : ℝ) < Real.sqrt ((q.2 : ℚ) : ℝ)) :=
  ⟨by decide, claim_C7_min_dist_first_tie scenarioA "treatment" "time" ["x"]
    none [(0, 1), (2, 3)] (by decide) [] (0, 1) [(2, 3)] rfl⟩

theorem locTimes_length {df : DF} :
    ∀ {is : List ℕ} {ts : List ℚ},
      locTimes df is = Except.ok ts → ts.length = is.length := by
  intro is
  induction is with
  | nil =>
    intro ts h
    rw [locTimes] at h
    cases h
    rfl
  | cons i rest ih =>
    intro ts h
    rw [locTimes] at h
    cases h1 : dfLocTime df i with
    | error e => rw [h1] at h; cases h
    | ok t =>
      rw [h1] at h
      cases h2 : locTimes df rest with
      | error e => rw [h2] at h; cases h
      | ok ts2 =>
        rw [h2] at h
        cases h
        simp [ih h2]

theorem np_mean_ne_nil {l : List ℚ} (h : l ≠ []) :
    np_mean l = some (l.sum / (l.length : ℚ)) := by
  cases l with
  | nil => cases h rfl
  | cons x xs => rw [np_mean, qdiv_eq, qsum_eq]

theorem np_var_ne_nil {l : List ℚ} (h : l ≠ []) :
    np_var l = some ((l.map (fun x =>
        (x - l.sum / (l.length : ℚ)) * (x - l.sum / (l.length : ℚ)))).sum /
      (l.length : ℚ)) := by
  rw [np_var, np_mean_ne_nil h]
  dsimp only
  rw [np_mean_ne_nil (by simp [h]), List.length_map]
  simp only [qmul_eq, qsub_eq]

theorem zipWith_qsub_eq : ∀ xs ys : List ℚ,
    List.zipWith qsub xs ys = List.zipWith (fun a b => a - b) xs ys
  | [], ys => by cases ys <;> rfl
  | x :: xs, [] => rfl
  | x :: xs, y :: ys => by
    show qsub x y :: List.zipWith qsub xs ys = _
    rw [qsub_eq, zipWith_qsub_eq xs ys]
    rfl

/-- Claim C4 evaluation: on an empty pair list the summary function raises
(the `np.min` reduction over an empty array), for every table -- it does not
return a count-0 record with sentinel fields. -/
theorem claim_C4_empty_summary_raises (df : DF) :
    analyze_matching_results [] df = Except.error PdError.valueError := rfl

/-- Claim C10: for a non-empty pair list, a successful summary counts the
pairs, and its mean and (squared) standard deviation are the arithmetic mean
and the population variance (denominator `n`, numpy's ddof = 0 default) of
the treated-minus-control differences of the column literally named "time"
(`locTimes` reads `df.loc[idx, 'time']`; `analyze_matching_results` never
receives the matcher's `time_col` argument). -/
theorem claim_C10_analyze_fields (df : DF) (matchesList : List (ℕ × ℕ))
    (s : Summary) (hne : matchesList ≠ [])
    (h : analyze_matching_results matchesList df = Except.ok s) :
    s.totalMatchedPairs = matchesList.length ∧
    ∃ tts cts tds,
      locTimes df (matchesList.map Prod.fst) = Except.ok tts ∧
      locTimes df (matchesList.map Prod.snd) = Except.ok cts ∧
      tds = List.zipWith (fun a b => a - b) tts cts ∧
      s.meanTimeDiff = some (tds.sum / (tds.length : ℚ)) ∧
      s.varTimeDiff = some ((tds.map (fun x =>
          (x - tds.sum / (tds.length : ℚ)) *
          (x - tds.sum / (tds.length : ℚ)))).sum / (tds.length : ℚ)) := by
  rw [analyze_matching_results] at h
  cases h1 : locTimes df (matchesList.map Prod.fst) with
  | error e => rw [h1] at h; cases h
  | ok tts =>
    rw [h1] at h
    dsimp only at h
    cases h2 : locTimes df (matchesList.map Prod.snd) with
    | error e => rw [h2] at h; cases h
    | ok cts =>
      rw [h2] at h
      dsimp only at h
      cases h3 : np_min (List.zipWith qsub tts cts) with
      | error e => rw [h3] at h; cases h
      | ok mn =>
        rw [h3] at h
        dsimp only at h
        cases h4 : np_max (List.zipWith qsub tts cts) with
        | error e => rw [h4] at h; cases h
        | ok mx =>
          rw [h4] at h
          dsimp only at h
          cases h
          have hlen : (List.zipWith qsub tts cts).length =
              matchesList.length := by
            rw [List.length_zipWith, locTimes_length h1, locTimes_length h2,
              List.length_map, List.length_map, min_self]
          have htds_ne : List.zipWith qsub tts cts ≠ [] := by
            intro hnil
            apply hne
            apply List.length_eq_zero.mp
            rw [← hlen, hnil]
            rfl
          rw [zipWith_qsub_eq] at htds_ne hlen
          refine ⟨rfl, tts, cts, List.zipWith (fun a b => a - b) tts cts,
            rfl, rfl, rfl, ?_, ?_⟩
          · show np_mean (List.zipWith qsub tts cts) = _
            rw [zipWith_qsub_eq, np_mean_ne_nil htds_ne]
          · show np_var (List.zipWith qsub tts cts) = _
            rw [zipWith_qsub_eq, np_var_ne_nil htds_ne]

/-- Witness for C10: the summary of the Scenario A pairs, whose time
differences are [-1, -1], so count 2, mean -1, variance 0. -/
theorem claim_C10_witness :
    (([(0, 1), (2, 3)] : List (ℕ × ℕ)) ≠ [] ∧
      analyze_matching_results [(0, 1), (2, 3)] scenarioA =
        Except.ok ⟨2, some (-1), some 0, -1, -1⟩) ∧
    ((⟨2, some (-1), some 0, -1, -1⟩ : Summary).totalMatchedPairs =
        ([(0, 1), (2, 3)] : List (ℕ × ℕ)).length ∧
      ∃ tts cts tds,
        locTimes scenarioA (([(0, 1), (2, 3)] : List (ℕ × ℕ)).map Prod.fst) =
          Except.ok tts ∧
        locTimes scenarioA (([(0, 1), (2, 3)] : List (ℕ × ℕ)).map Prod.snd) =
          Except.ok cts ∧
        tds = List.zipWith (fun a b => a - b) tts cts ∧
        (⟨2, some (-1), some 0, -1, -1⟩ : Summary).meanTimeDiff =
          some (tds.sum / (tds.length : ℚ)) ∧
        (⟨2, some (-1), some 0, -1, -1⟩ : Summary).varTimeDiff =
          some ((tds.map (fun x =>
              (x - tds.sum / (tds.length : ℚ)) *
              (x - tds.sum / (tds.length : ℚ)))).sum / (tds.length : ℚ))) :=
  ⟨⟨by decide, by decide⟩,
    claim_C10_analyze_fields scenarioA [(0, 1), (2, 3)]
      ⟨2, some (-1), some 0, -1, -1⟩ (by decide) (by decide)⟩

/-- Claim C8, amended: a missing time or treatment column does abort the run
with an error before any pair is delivered (the caller receives an error,
never a partial list).  Covariate defects, by contrast, only fail when the
offending row's covariates are actually read -- see the counterexample. -/
theorem claim_C8_amended (df : DF) (tCol timeCol : String)
    (covCols : List String) (caliper : Option ℚ)
    (hbad : ∃ r ∈ df, r.cell timeCol = none ∨ r.cell tCol = none) :
    ∃ e, balanced_risk_set_matching df tCol timeCol covCols caliper =
      Except.error e := by
  obtain ⟨r, hr, hcase⟩ := hbad
  rw [balanced_risk_set_matching]
  cases h1 : sortValues df timeCol with
  | error e => exact ⟨e, rfl⟩
  | ok dfm =>
    dsimp only
    rcases hcase with htime | htcol
    · obtain ⟨e, he⟩ := keyRows_error hr htime
      rw [sortValues, he] at h1
      cases h1
    · have hrdfm : r ∈ dfm := (sortValues_mem h1 r).mpr hr
      rw [colCheck_error hrdfm htcol]
      exact ⟨PdError.keyError tCol, rfl⟩

/-- Witness for the amended C8: a table whose row lacks the time column makes
the matcher fail. -/
theorem claim_C8_amended_witness :
    (∃ r ∈ noTimeTable, r.cell "time" = none ∨ r.cell "tr" = none) ∧
    (∃ e, balanced_risk_set_matching noTimeTable "tr" "time" ["x"] none =
      Except.error e) :=
  ⟨by decide,
    claim_C8_amended noTimeTable "tr" "time" ["x"] none (by decide)⟩

/-- Counterexample to C8 as stated: `badCovTable` is malformed -- its control
row carries the non-numeric covariate value "oops" -- yet the matcher
completes without any error and returns the empty pair list, because that
row's covariates are never read: its time precedes the treated row's time,
so it belongs to no examined risk set. -/
theorem claim_C8_counterexample :
    (∃ r ∈ badCovTable, ∃ c ∈ (["x"] : List String), ∃ v,
      r.cell c = some v ∧ v.toNum = none) ∧
    balanced_risk_set_matching badCovTable "tr" "time" ["x"] none =
      Except.ok [] :=
  ⟨⟨⟨1, [("tr", Value.num 0), ("time", Value.num 0),
      ("x", Value.str "oops")]⟩,
    by decide, "x", by decide, Value.str "oops", by decide, rfl⟩,
   by decide⟩

/-- Claim C9: the matcher leaves every pre-existing table of the caller's
object store unchanged -- `df.copy()` allocates a fresh table and the
in-place sort mutates only that fresh allocation, so the store's original
prefix is preserved verbatim. -/
theorem claim_C9_input_unchanged (h : List DF) (i : ℕ)
    (tCol timeCol : String) (covCols : List String) (caliper : Option ℚ) :
    (heap_run h i tCol timeCol covCols caliper).1.take h.length = h := by
  rw [heap_run]
  cases sortValues (h.getD i []) timeCol with
  | ok dfm => exact List.take_left h [dfm]
  | error e => exact List.take_left h [h.getD i []]

end Algo
